import Mathlib

/-!
Shallow embedding of the fetch–extract–persist pipeline implemented in
`crawling_basic_code.py`, together with theorems checking the
natural-language specification against it.

Conventions of the embedding:
* machine-level bytes are `List Nat`;
* Python dictionaries are insertion-ordered association lists with the
  assignment (overwrite-or-append) and `get` (first match, `none` when
  absent) operations of CPython dicts;
* raised exceptions are `Except`/`Option` error values; an operation that
  lets an exception propagate returns the error instead of a result;
* external collaborators (the HTTP transport, the HTML/XML parsers, the
  relational store, the file system) are oracle parameters, so theorems
  quantify over every behaviour those collaborators can exhibit.
-/

/-- Raw response body bytes. -/
abbrev Bytes := List Nat

/-- Lookup in a string-keyed mapping (CPython `dict.get`): first entry whose
key matches, `none` when absent. -/
def dictGet (d : List (String × String)) (k : String) : Option String :=
  (d.find? (fun p => p.1 == k)).map (fun p => p.2)

/-- CPython dict assignment `d[k] = v`: overwrite the existing entry in
place when the key is present, append a new entry otherwise. -/
def dictInsert (d : List (String × String)) (k v : String) : List (String × String) :=
  if d.any (fun p => p.1 == k) then
    d.map (fun p => if p.1 == k then (k, v) else p)
  else
    d ++ [(k, v)]

/-- The synthetic key the store derives from an index: the f-string
`key_{idx}` of `JsonHandler.data_to_json`. -/
def synKey (i : Nat) : String := "key_" ++ toString i

/-- `JsonHandler`: the keyed intermediate store; its only state is the
`json_data` dictionary. -/
structure JsonHandler where
  json_data : List (String × String)
deriving DecidableEq

/-- `JsonHandler.data_to_json`: for each `(idx, item)` of `enumerate(data)`,
assign `json_data[f"key_{idx}"] = item`, in input order. -/
def data_to_json (h : JsonHandler) (data : List String) : JsonHandler :=
  { json_data :=
      data.enum.foldl (fun d p => dictInsert d (synKey p.1) p.2) h.json_data }

/-- `JsonHandler.get_data_from_json_key`: `json_data.get(key, None)`. -/
def get_data_from_json_key (h : JsonHandler) (key : String) : Option String :=
  dictGet h.json_data key

/-- The character list `Nat.toDigitsCore` pushes for an input `n`: `'0'`
for zero, otherwise the base-10 digits most-significant first. -/
def digitsChars (n : Nat) : List Char :=
  if n = 0 then ['0'] else ((Nat.digits 10 n).map Nat.digitChar).reverse

/-- An HTTP response as the transport boundary returns it. -/
structure HttpResponse where
  status : Nat
  headers : List (String × String)
  content : Bytes
deriving DecidableEq

/-- requests `Response.raise_for_status`: an `HTTPError` is raised exactly
for status codes in `[400, 600)`. -/
def raise_for_status_raises (status : Nat) : Bool :=
  decide (400 ≤ status ∧ status < 600)

/-- A requests-level failure; each of these is a `RequestException`. -/
inductive FetchError where
  | connectionError
  | httpError (status : Nat)
deriving DecidableEq

/-- Outcome of one low-level GET before any status checking. -/
inductive GetResult where
  | ok (r : HttpResponse)
  | netError
deriving DecidableEq

/-- The HTTP transport: the response it produces as a function of the
certificate-verification flag passed to `requests.get`. -/
structure Transport where
  get : Bool → GetResult

/-- One `requests.get` followed by `raise_for_status`. -/
def attemptGet (t : Transport) (verify : Bool) : Except FetchError HttpResponse :=
  match t.get verify with
  | .netError => .error .connectionError
  | .ok r =>
    if raise_for_status_raises r.status then .error (.httpError r.status) else .ok r

/-- `HttpRequestHandler._get_web_page`: GET with default verification; on
any `RequestException` retry exactly once with verification disabled and
let a failure of that retry propagate. The second component records each
GET issued, by the verification flag it was issued with. -/
def get_web_page (t : Transport) : Except FetchError HttpResponse × List Bool :=
  match attemptGet t true with
  | .ok r => (.ok r, [true])
  | .error _ => (attemptGet t false, [true, false])

/-- An `HttpRequestHandler` whose constructor succeeded: `__init__` stored
the url, the headers and the fetched response. -/
structure HttpRequestHandler where
  url : String
  headers : List (String × String)
  response : HttpResponse
deriving DecidableEq

/-- `HttpRequestHandler.json_content`: parse the body only when the
content-type header is exactly `"application/json"`. `parse` abstracts
`Response.json()`. -/
def json_content {α : Type} (parse : Bytes → α) (h : HttpRequestHandler) : Option α :=
  if dictGet h.response.headers "content-type" = some "application/json" then
    some (parse h.response.content)
  else
    none

/-- A Python attribute value reachable on an `HttpRequestHandler`. -/
inductive PyAttr where
  | strVal (s : String)
  | headersVal (hs : List (String × String))
  | responseVal (r : HttpResponse)
deriving DecidableEq

/-- Python attribute lookup on an `HttpRequestHandler`: `__init__` sets
exactly `url`, `headers` and `response`; reading any other attribute name
raises `AttributeError`, modelled as `none`. -/
def HttpRequestHandler.getattr (h : HttpRequestHandler) : String → Option PyAttr
  | "url" => some (.strVal h.url)
  | "headers" => some (.headersVal h.headers)
  | "response" => some (.responseVal h.response)
  | _ => none

/-- A failure raised while constructing a scraper's parse tree. -/
inductive InitError where
  | attributeError
  | parseError
deriving DecidableEq

/-- `LxmlScraper.__init__` building `self.tree`: evaluate
`etree.HTML(self.http_request.content)` — the attribute access on the
handler happens first, then the parser runs on its value. `etreeHTML`
abstracts the lxml parser, failing on unparsable input. -/
def LxmlScraper.initTree {Tree : Type} (etreeHTML : PyAttr → Except Unit Tree)
    (h : HttpRequestHandler) : Except InitError Tree :=
  match h.getattr "content" with
  | none => .error .attributeError
  | some v =>
    match etreeHTML v with
    | .error _ => .error .parseError
    | .ok t => .ok t

/-- `Bs4Scraper.__init__` building `self.soup`:
`BeautifulSoup(self.http_request.response.content, "html.parser")`. -/
def Bs4Scraper.initSoup {Soup : Type} (beautifulSoup : Bytes → Soup)
    (h : HttpRequestHandler) : Soup :=
  beautifulSoup h.response.content

/-- A node matched by a CSS selector, with its text content. -/
structure SoupNode where
  text : String
deriving DecidableEq

/-- A parsed BeautifulSoup document: `select` returns the matching nodes in
document order. -/
structure Soup where
  select : String → List SoupNode

/-- The `selectors`/`xpaths` argument: a single string or a list of them. -/
inductive Queries where
  | one (s : String)
  | many (ss : List String)

/-- `Bs4Scraper.get_data`: normalize a lone selector to a one-element list,
then produce one sub-list of matched node texts per selector. -/
def Bs4Scraper.get_data (soup : Soup) (selectors : Queries) : List (List String) :=
  let ss := match selectors with
    | .one s => [s]
    | .many l => l
  ss.map (fun sel => (soup.select sel).map SoupNode.text)

/-- An item produced by an lxml xpath query: an element node (whose text
may be absent) or a raw value such as an attribute string or a literal,
which has no text attribute. -/
inductive XpathItem where
  | element (text : Option String)
  | raw (value : String)
deriving DecidableEq

/-- The value `get_data` keeps per matched item. -/
inductive XpathValue where
  | text (t : Option String)
  | item (v : String)
deriving DecidableEq

/-- The per-item expression of `LxmlScraper.get_data`:
`item.text if hasattr(item, "text") else item`. -/
def xpathItemValue : XpathItem → XpathValue
  | .element t => .text t
  | .raw v => .item v

/-- A parsed lxml tree: `xpath` returns the matching items in document
order. -/
structure LxmlTree where
  xpath : String → List XpathItem

/-- `LxmlScraper.get_data`: normalize a lone xpath to a one-element list,
then produce one sub-list per xpath. -/
def LxmlScraper.get_data (tree : LxmlTree) (xpaths : Queries) : List (List XpathValue) :=
  let xs := match xpaths with
    | .one s => [s]
    | .many l => l
  xs.map (fun xp => (tree.xpath xp).map xpathItemValue)

/-- A database error raised by `cursor.execute`. -/
inductive DbError where
  | executeError
deriving DecidableEq

/-- The relational store and connection state seen through one
`PostgresHandler`: the rows made durable by a commit, and the two close
flags. -/
structure DbState where
  committed : List (String × String)
  cursorClosed : Bool
  connectionClosed : Bool
deriving DecidableEq

/-- `PostgresHandler.execute_query` for the insert of one item into a
table: `cursor.execute` then `connection.commit`. A raising execute leaves
the committed rows unchanged and propagates. `fails` is the store's oracle
for which item values make execute raise. -/
def execute_query (fails : String → Bool) (st : DbState) (table item : String) :
    Except DbError DbState :=
  if fails item then .error .executeError
  else .ok { st with committed := st.committed ++ [(table, item)] }

/-- `PostgresHandler.close`: close the cursor and the connection, each
behind its own guard. -/
def PostgresHandler.close (st : DbState) : DbState :=
  { st with cursorClosed := true, connectionClosed := true }

/-- `BaseScraper.save_data_to_db`: one parameterized insert per item with a
commit after each; there is no exception handler, so the first failing
execute propagates to the caller, aborting the loop and skipping the
close. Returns the final store state and the raised error, if any. -/
def save_data_to_db (fails : String → Bool) (st : DbState) (data : List String)
    (table : String) : DbState × Option DbError :=
  match data with
  | [] => (PostgresHandler.close st, none)
  | item :: rest =>
    match execute_query fails st table item with
    | .error e => (st, some e)
    | .ok st1 => save_data_to_db fails st1 rest table

/-- The full constructor-argument set of a scraper class. -/
structure Config where
  url : String
  headers : List (String × String)
  dbname : String
  user : String
  password : String
  host : String
  port : String
deriving DecidableEq

/-- A constructed pipeline instance, carrying the constructor arguments its
`__init__` actually ran with. -/
structure ScraperInstance where
  config : Config
deriving DecidableEq

/-- `SingletonMeta._instances`: a registry mapping a class (by its name) to
the one instance stored for it. -/
def registryGet (reg : List (String × ScraperInstance)) (cls : String) :
    Option ScraperInstance :=
  (reg.find? (fun p => p.1 == cls)).map (fun p => p.2)

/-- `SingletonMeta.__call__`: if the class has no stored instance, run the
constructor with the given arguments and store the result under the class;
otherwise return the stored instance, ignoring the new arguments. -/
def SingletonMeta.call (reg : List (String × ScraperInstance)) (cls : String)
    (cfg : Config) : ScraperInstance × List (String × ScraperInstance) :=
  match registryGet reg cls with
  | some inst => (inst, reg)
  | none => (⟨cfg⟩, reg ++ [(cls, ⟨cfg⟩)])

/-- The state of the `requests.Session` a `SessionRequestHandler` owns. -/
structure SessionState where
  closed : Bool
deriving DecidableEq

/-- Outcome of the login POST performed by `__enter__`. -/
inductive LoginResult where
  | success
  | failure
deriving DecidableEq

/-- Outcome of the code block executed inside the with-scope: a normal
completion (which also covers early returns), or an error propagating out
of it. -/
inductive BodyOutcome (α : Type) where
  | ret (a : α)
  | err (msg : String)
deriving DecidableEq

/-- `SessionRequestHandler.__exit__`: `session.close()`, unconditionally,
ignoring whatever exception information is passed in. -/
def SessionRequestHandler.exit (st : SessionState) (_excInfo : Option String) :
    SessionState :=
  { st with closed := true }

/-- How the with-statement as a whole terminates. -/
inductive WithResult (α : Type) where
  | ok (a : α)
  | raised (msg : String)
  | enterFailed
deriving DecidableEq

/-- The Python with-statement over a `SessionRequestHandler`: `__init__`
creates an open session; `__enter__` posts the login and raises on
failure, in which case `__exit__` never runs; otherwise the body runs and
`__exit__` runs on every body outcome, after which a body error
propagates. The final session state is returned alongside the outcome. -/
def withSessionScope {α : Type} (login : LoginResult) (body : BodyOutcome α) :
    WithResult α × SessionState :=
  match login with
  | .failure => (.enterFailed, { closed := false })
  | .success =>
    match body with
    | .ret a => (.ok a, SessionRequestHandler.exit { closed := false } none)
    | .err m => (.raised m, SessionRequestHandler.exit { closed := false } (some m))

/-- The file system: the stored files plus an oracle for which paths fail
to open for writing. -/
structure FileSystem where
  files : List (String × Bytes)
  writeFails : String → Bool

/-- Writing bytes to a path with `open(path, "wb")`: truncate-and-write,
overwriting any existing file at the path; raises `OSError` when the
oracle says the path cannot be written. -/
def fsWrite (fs : FileSystem) (path : String) (bytes : Bytes) :
    Except Unit FileSystem :=
  if fs.writeFails path then .error ()
  else .ok { fs with files := (fs.files.filter (fun p => p.1 != path)) ++ [(path, bytes)] }

/-- Reading back the file stored at a path. -/
def fsGet (fs : FileSystem) (path : String) : Option Bytes :=
  (fs.files.find? (fun p => p.1 == path)).map (fun p => p.2)

/-- How `SessionRequestHandler.download_file` terminates. -/
inductive DownloadResult where
  | completed
  | reportedError (e : FetchError)
  | raisedIOError
deriving DecidableEq

/-- `SessionRequestHandler.download_file`: session GET, `raise_for_status`,
then write the content to `save_path`; the except clause catches only
`RequestException` (reporting it through print and returning normally), so
an `OSError` raised by the file write propagates to the caller. -/
def download_file (net : String → GetResult) (fs : FileSystem) (url savePath : String) :
    DownloadResult × FileSystem :=
  match net url with
  | .netError => (.reportedError .connectionError, fs)
  | .ok r =>
    if raise_for_status_raises r.status then
      (.reportedError (.httpError r.status), fs)
    else
      match fsWrite fs savePath r.content with
      | .error _ => (.raisedIOError, fs)
      | .ok fs1 => (.completed, fs1)

/-!
Helper lemmas: `Nat.repr` is injective, so distinct indices produce
distinct synthetic keys.
-/

theorem toDigitsCore_eq_digitsChars :
    ∀ (fuel n : Nat) (ds : List Char), n < fuel →
      Nat.toDigitsCore 10 fuel n ds = digitsChars n ++ ds := by
  intro fuel
  induction fuel with
  | zero => intro n ds h; omega
  | succ fuel ih =>
    intro n ds _
    by_cases h0 : n / 10 = 0
    · by_cases hn : n = 0
      · subst hn
        simp only [Nat.toDigitsCore, digitsChars, if_pos rfl]
        norm_num [Nat.digitChar]
      · have hdig : Nat.digits 10 n = [n % 10] := by
          rw [Nat.digits_def' (by norm_num : (1:ℕ) < 10) (Nat.pos_of_ne_zero hn), h0]
          simp
        simp [Nat.toDigitsCore, h0, digitsChars, hn, hdig]
    · have hn : n ≠ 0 := by
        intro e; subst e; simp at h0
      have hlt : n / 10 < fuel := by
        have h1 : n / 10 < n := Nat.div_lt_self (Nat.pos_of_ne_zero hn) (by norm_num)
        omega
      have hrec : Nat.toDigitsCore 10 (fuel + 1) n ds
          = Nat.toDigitsCore 10 fuel (n / 10) (Nat.digitChar (n % 10) :: ds) := by
        simp [Nat.toDigitsCore, h0]
      rw [hrec, ih (n / 10) _ hlt]
      have hdig : Nat.digits 10 n = n % 10 :: Nat.digits 10 (n / 10) :=
        Nat.digits_def' (by norm_num : (1:ℕ) < 10) (Nat.pos_of_ne_zero hn)
      simp [digitsChars, hn, h0, hdig]

theorem toDigits_eq_digitsChars (n : Nat) : Nat.toDigits 10 n = digitsChars n := by
  have := toDigitsCore_eq_digitsChars (n + 1) n [] (by omega)
  simpa [Nat.toDigits] using this

theorem digitChar_injOn : ∀ a < 10, ∀ b < 10, Nat.digitChar a = Nat.digitChar b → a = b := by
  decide

theorem map_digitChar_inj :
    ∀ (l₁ l₂ : List Nat), (∀ x ∈ l₁, x < 10) → (∀ x ∈ l₂, x < 10) →
      l₁.map Nat.digitChar = l₂.map Nat.digitChar → l₁ = l₂ := by
  intro l₁
  induction l₁ with
  | nil => intro l₂ _ _ h; cases l₂ <;> simp_all
  | cons a t ih =>
    intro l₂ h₁ h₂ h
    cases l₂ with
    | nil => simp at h
    | cons b t₂ =>
      simp only [List.map_cons, List.cons.injEq] at h
      have ha : a = b :=
        digitChar_injOn a (h₁ a (by simp)) b (h₂ b (by simp)) h.1
      have ht : t = t₂ :=
        ih t₂ (fun x hx => h₁ x (by simp [hx])) (fun x hx => h₂ x (by simp [hx])) h.2
      simp [ha, ht]

theorem digits_all_lt (n : Nat) : ∀ x ∈ Nat.digits 10 n, x < 10 := by
  intro x hx
  exact Nat.digits_lt_base (by norm_num) hx

theorem digitsChars_inj : ∀ m n : Nat, digitsChars m = digitsChars n → m = n := by
  have key : ∀ n : Nat, n ≠ 0 → ((Nat.digits 10 n).map Nat.digitChar).reverse ≠ ['0'] := by
    intro n hn hcontra
    have h1 : (Nat.digits 10 n).map Nat.digitChar = ['0'] := by
      have := congrArg List.reverse hcontra
      simpa using this
    have h2 : Nat.digits 10 n = [0] := by
      apply map_digitChar_inj _ _ (digits_all_lt n) (by intro x hx; simp at hx; omega)
      simpa using h1
    have h3 := Nat.getLast_digit_ne_zero 10 hn
    simp [h2] at h3
  intro m n h
  by_cases hm : m = 0 <;> by_cases hn : n = 0
  · omega
  · exfalso; subst hm
    simp only [digitsChars, if_pos rfl, if_neg hn] at h
    exact key n hn h.symm
  · exfalso; subst hn
    simp only [digitsChars, if_neg hm, if_pos rfl] at h
    exact key m hm h
  · simp only [digitsChars, if_neg hm, if_neg hn] at h
    have h1 : (Nat.digits 10 m).map Nat.digitChar = (Nat.digits 10 n).map Nat.digitChar := by
      have := congrArg List.reverse h
      simpa using this
    have h2 : Nat.digits 10 m = Nat.digits 10 n :=
      map_digitChar_inj _ _ (digits_all_lt m) (digits_all_lt n) h1
    calc m = Nat.ofDigits 10 (Nat.digits 10 m) := (Nat.ofDigits_digits 10 m).symm
    _ = Nat.ofDigits 10 (Nat.digits 10 n) := by rw [h2]
    _ = n := Nat.ofDigits_digits 10 n

theorem natRepr_inj : ∀ m n : Nat, Nat.repr m = Nat.repr n → m = n := by
  intro m n h
  apply digitsChars_inj
  have h1 : (Nat.toDigits 10 m).asString = (Nat.toDigits 10 n).asString := h
  have h2 : Nat.toDigits 10 m = Nat.toDigits 10 n := by
    have := congrArg String.data h1
    simpa [List.asString] using this
  rwa [toDigits_eq_digitsChars, toDigits_eq_digitsChars] at h2

theorem synKey_inj : ∀ m n : Nat, synKey m = synKey n → m = n := by
  intro m n h
  apply natRepr_inj
  have hd := congrArg String.data h
  simp only [synKey] at hd
  have hd2 : ("key_".data ++ (toString m).data) = ("key_".data ++ (toString n).data) := by
    simpa [String.data_append] using hd
  have hd3 : (toString m).data = (toString n).data := by
    exact List.append_cancel_left hd2
  show (toString m : String) = toString n
  cases he : (toString m : String) with
  | mk dm =>
    cases he2 : (toString n : String) with
    | mk dn =>
      have : dm = dn := by
        rw [he] at hd3; rw [he2] at hd3; exact hd3
      simp [this]


/-!
Helper lemmas about the dict model and the synthetic-key ingest.
-/

theorem dictGet_cons :
    ∀ (p : String × String) (t : List (String × String)) (k : String),
      dictGet (p :: t) k = if p.1 == k then some p.2 else dictGet t k := by
  intro p t k
  cases h : (p.1 == k) <;> simp [dictGet, List.find?, h]

theorem dictGet_map_overwrite_of_ne :
    ∀ (d : List (String × String)) (k v k' : String), k' ≠ k →
      dictGet (d.map (fun q => if q.1 == k then (k, v) else q)) k' = dictGet d k' := by
  intro d k v k' hne
  induction d with
  | nil => simp
  | cons p t ih =>
    rw [List.map_cons, dictGet_cons, dictGet_cons]
    by_cases hp : (p.1 == k) = true
    · have hp1 : p.1 = k := eq_of_beq hp
      have hc1 : ((k, v).1 == k') = false := by
        simp; exact fun e => hne e.symm
      have hc2 : (p.1 == k') = false := by
        simp [hp1]; exact fun e => hne e.symm
      rw [if_pos hp, if_neg (by simp [hc1]), if_neg (by simp [hc2])]
      simpa using ih
    · rw [if_neg hp]
      by_cases hp' : (p.1 == k') = true
      · simp [hp']
      · simp only [Bool.not_eq_true] at hp'
        simp only [hp', Bool.false_eq_true, if_false]
        simpa using ih

theorem dictGet_append_single_of_ne :
    ∀ (d : List (String × String)) (k v k' : String), k' ≠ k →
      dictGet (d ++ [(k, v)]) k' = dictGet d k' := by
  intro d k v k' hne
  have hk : ((k : String) == k') = false := by
    simp; exact fun e => hne e.symm
  cases hf : List.find? (fun p => p.1 == k') d with
  | none => simp [dictGet, List.find?_append, hf, List.find?, hk]
  | some q => simp [dictGet, List.find?_append, hf]

theorem dictGet_insert_of_ne :
    ∀ (d : List (String × String)) (k v k' : String), k' ≠ k →
      dictGet (dictInsert d k v) k' = dictGet d k' := by
  intro d k v k' hne
  by_cases hd : (d.any fun q => q.1 == k) = true
  · have : dictInsert d k v = d.map (fun q => if q.1 == k then (k, v) else q) := by
      simp [dictInsert, hd]
    rw [this]
    exact dictGet_map_overwrite_of_ne d k v k' hne
  · have : dictInsert d k v = d ++ [(k, v)] := by
      simp [dictInsert, hd]
    rw [this]
    exact dictGet_append_single_of_ne d k v k' hne

theorem dictGet_insert_self :
    ∀ (d : List (String × String)) (k v : String),
      dictGet (dictInsert d k v) k = some v := by
  intro d k v
  induction d with
  | nil => simp [dictInsert, dictGet, List.find?]
  | cons p t ih =>
    by_cases hp : (p.1 == k) = true
    · have hany : ((p :: t).any fun q => q.1 == k) = true := by simp [hp]
      have h1 : dictInsert (p :: t) k v
          = (k, v) :: t.map (fun q => if q.1 == k then (k, v) else q) := by
        unfold dictInsert
        rw [if_pos hany, List.map_cons, if_pos hp]
      rw [h1, dictGet_cons]
      simp
    · by_cases ht : (t.any fun q => q.1 == k) = true
      · have hany : ((p :: t).any fun q => q.1 == k) = true := by simp [ht]
        have h1 : dictInsert (p :: t) k v
            = p :: t.map (fun q => if q.1 == k then (k, v) else q) := by
          unfold dictInsert
          rw [if_pos hany, List.map_cons, if_neg hp]
        have h2 : dictInsert t k v = t.map (fun q => if q.1 == k then (k, v) else q) := by
          simp [dictInsert, ht]
        rw [h1, dictGet_cons, if_neg hp, ← h2]
        exact ih
      · have h1 : dictInsert (p :: t) k v = p :: (t ++ [(k, v)]) := by
          simp [dictInsert, hp, ht]
        have h2 : dictInsert t k v = t ++ [(k, v)] := by
          simp [dictInsert, ht]
        rw [h1, dictGet_cons, if_neg hp, ← h2]
        exact ih

theorem ingestFrom_get_outside :
    ∀ (s : List String) (n : Nat) (d : List (String × String)) (k : String),
      (∀ i, i < s.length → k ≠ synKey (n + i)) →
      dictGet ((s.enumFrom n).foldl (fun d p => dictInsert d (synKey p.1) p.2) d) k
        = dictGet d k := by
  intro s
  induction s with
  | nil => intro n d k _; simp
  | cons a t ih =>
    intro n d k hk
    simp only [List.enumFrom_cons, List.foldl_cons]
    have h1 : ∀ i, i < t.length → k ≠ synKey (n + 1 + i) := by
      intro i hi
      have h2 := hk (i + 1) (by simp; omega)
      have harith : n + (i + 1) = n + 1 + i := by omega
      rwa [harith] at h2
    rw [ih (n + 1) (dictInsert d (synKey n) a) k h1]
    exact dictGet_insert_of_ne d (synKey n) a k (by simpa using hk 0 (by simp))

theorem ingestFrom_get_inside :
    ∀ (s : List String) (n : Nat) (d : List (String × String)) (i : Nat), i < s.length →
      dictGet ((s.enumFrom n).foldl (fun d p => dictInsert d (synKey p.1) p.2) d)
          (synKey (n + i))
        = some (s.getD i "") := by
  intro s
  induction s with
  | nil => intro n d i hi; simp at hi
  | cons a t ih =>
    intro n d i hi
    simp only [List.enumFrom_cons, List.foldl_cons]
    cases i with
    | zero =>
      have hout : ∀ j, j < t.length → synKey (n + 0) ≠ synKey (n + 1 + j) := by
        intro j hj he
        have := synKey_inj _ _ he
        omega
      rw [ingestFrom_get_outside t (n + 1) (dictInsert d (synKey n) a) (synKey (n + 0)) hout]
      simpa using dictGet_insert_self d (synKey n) a
    | succ j =>
      have hj : j < t.length := by simpa using hi
      have hres := ih (n + 1) (dictInsert d (synKey n) a) j hj
      have harith : n + 1 + j = n + (j + 1) := by omega
      rw [harith] at hres
      simpa using hres

/-- Auxiliary: `getD` of a mapped list at an in-range index is the function
applied to the `getD` of the original list. -/
theorem getD_map_of_lt :
    ∀ {α β : Type} (l : List α) (f : α → β) (i : Nat) (dA : α) (dB : β), i < l.length →
      (l.map f).getD i dB = f (l.getD i dA) := by
  intro α β l f
  induction l with
  | nil => intro i dA dB h; simp at h
  | cons a t ih =>
    intro i dA dB h
    cases i with
    | zero => simp
    | succ j => simpa using ih j dA dB (by simpa using h)

/-- Auxiliary: a successful `attemptGet` means the status is outside the
raising range and the response is exactly what the transport returned. -/
theorem attemptGet_ok_spec :
    ∀ (t : Transport) (v : Bool) (r : HttpResponse),
      attemptGet t v = .ok r →
      raise_for_status_raises r.status = false ∧ t.get v = .ok r := by
  intro t v r h
  unfold attemptGet at h
  split at h
  · simp at h
  · rename_i r0 heq
    split at h
    · simp at h
    · rename_i hr
      simp only [Except.ok.injEq] at h
      subst h
      exact ⟨by simpa using hr, heq⟩

/-!
Claim theorems.
-/

/-- C1, counterexample: `PersistenceSink.writeAll("t", [x, y, z])` where the
write of `y` fails does NOT report the failure and continue — the error is
raised to the caller and the remaining item `z` is never written (nor is
the handler closed): the second component of the result is the propagated
error, not `none`. -/
theorem writeAll_failure_propagates_cex :
    save_data_to_db (fun s => s == "y") ⟨[], false, false⟩ ["x", "y", "z"] "t"
      = (⟨[("t", "x")], false, false⟩, some DbError.executeError) := by
  decide

/-- C1, amended: if `writeAll` fails while writing the second item, the row
for the first item remains committed (each row is committed individually,
immediately after its insert), but the failure is raised to the caller,
aborting the remaining items of the batch and skipping the close. -/
theorem writeAll_commits_first_raises_second :
    ∀ (fails : String → Bool) (st : DbState) (table x y : String) (rest : List String),
      fails x = false → fails y = true →
      save_data_to_db fails st (x :: y :: rest) table
        = ({ st with committed := st.committed ++ [(table, x)] },
           some DbError.executeError) := by
  intro fails st table x y rest hx hy
  simp [save_data_to_db, execute_query, hx, hy]

/-- C1, witness for the amended theorem at a concrete batch. -/
theorem writeAll_commits_first_raises_second_witness :
    save_data_to_db (fun s => s == "y") ⟨[("t", "w")], false, false⟩ ["x", "y", "z"] "t"
      = (⟨[("t", "w"), ("t", "x")], false, false⟩, some DbError.executeError) := by
  have h := writeAll_commits_first_raises_second (fun s => s == "y")
      ⟨[("t", "w")], false, false⟩ "t" "x" "y" ["z"] (by decide) (by decide)
  simpa using h

/-- C2, counterexample: ingest is NOT a full replace of the synthetic
range — after `ingest(["a","b","c"])` then `ingest(["d"])`, `get("key_1")`
still returns `"b"`, a leftover of the longer prior ingest, instead of the
absent marker. -/
theorem ingest_not_full_replace_cex :
    get_data_from_json_key (data_to_json (data_to_json ⟨[]⟩ ["a", "b", "c"]) ["d"]) "key_1"
      = some "b" := by
  decide

/-- C2, amended: `ingest(s)` assigns the synthetic keys `key_0..key_{n-1}`
to the elements of `s` in input order, overwriting previous values under
those keys, and leaves every other key untouched (so leftover synthetic
keys of a longer prior ingest keep their old values, and on a store with
no prior content any other key — such as `key_99` after ingesting three
items — yields the absent marker, never raising). -/
theorem ingest_assigns_and_preserves :
    ∀ (h : JsonHandler) (s : List String),
      (∀ i, i < s.length →
        get_data_from_json_key (data_to_json h s) (synKey i) = some (s.getD i ""))
      ∧ (∀ k, (∀ i, i < s.length → k ≠ synKey i) →
        get_data_from_json_key (data_to_json h s) k = get_data_from_json_key h k) := by
  intro h s
  constructor
  · intro i hi
    have hres := ingestFrom_get_inside s 0 h.json_data i hi
    simpa [get_data_from_json_key, data_to_json, List.enum_eq_enumFrom] using hres
  · intro k hk
    have hres := ingestFrom_get_outside s 0 h.json_data k (by intro i hi; simpa using hk i hi)
    simpa [get_data_from_json_key, data_to_json, List.enum_eq_enumFrom] using hres

/-- C2, witness: `ingest(["a","b","c"])` then `get("key_1")` returns `"b"`,
and `get("key_99")` returns the absent marker. -/
theorem ingest_assigns_and_preserves_witness :
    get_data_from_json_key (data_to_json ⟨[]⟩ ["a", "b", "c"]) (synKey 1) = some "b"
    ∧ get_data_from_json_key (data_to_json ⟨[]⟩ ["a", "b", "c"]) "key_99" = none := by
  constructor
  · have h := (ingest_assigns_and_preserves ⟨[]⟩ ["a", "b", "c"]).1 1 (by norm_num)
    simpa using h
  · have h := (ingest_assigns_and_preserves ⟨[]⟩ ["a", "b", "c"]).2 "key_99"
        (by intro i hi; simp at hi; interval_cases i <;> decide)
    simpa [get_data_from_json_key, dictGet] using h

/-- C3, counterexample: two construction requests with distinct
extraction-backend configurations ARE collapsed onto one instance — the
second call returns the instance built from the first configuration, not
one keyed by its own arguments. -/
theorem singleton_collapses_configs_cex :
    ((SingletonMeta.call
        (SingletonMeta.call [] "Bs4Scraper" ⟨"http://a", [], "", "", "", "", ""⟩).2
        "Bs4Scraper" ⟨"http://b", [], "", "", "", "", ""⟩).1).config
      = ⟨"http://a", [], "", "", "", "", ""⟩
    ∧ (⟨"http://a", [], "", "", "", "", ""⟩ : Config)
      ≠ ⟨"http://b", [], "", "", "", "", ""⟩ := by
  constructor
  · decide
  · decide

/-- C3, amended: pipeline instances are keyed by the class alone, not by
the constructor-argument set — within one class the first construction
creates and stores the instance, and every later construction of that
class returns that same stored instance without re-running its
constructor, whatever the new configuration is (so identical
configurations observe the same instance, but distinct configurations of
the same class are collapsed as well). -/
theorem singleton_keyed_by_class :
    ∀ (reg : List (String × ScraperInstance)) (cls : String) (cfg₁ cfg₂ : Config),
      registryGet reg cls = none →
      (SingletonMeta.call reg cls cfg₁).1 = ⟨cfg₁⟩
      ∧ (SingletonMeta.call (SingletonMeta.call reg cls cfg₁).2 cls cfg₂).1 = ⟨cfg₁⟩ := by
  intro reg cls cfg₁ cfg₂ hnone
  have h1 : SingletonMeta.call reg cls cfg₁ = (⟨cfg₁⟩, reg ++ [(cls, ⟨cfg₁⟩)]) := by
    simp [SingletonMeta.call, hnone]
  have h0 : List.find? (fun p => p.1 == cls) reg = none := by
    by_cases hf : List.find? (fun p => p.1 == cls) reg = none
    · exact hf
    · exfalso
      rcases Option.ne_none_iff_exists'.mp hf with ⟨q, hq⟩
      simp [registryGet, hq] at hnone
  have h2 : registryGet (reg ++ [(cls, (⟨cfg₁⟩ : ScraperInstance))]) cls
      = some ⟨cfg₁⟩ := by
    simp [registryGet, List.find?_append, h0, List.find?]
  refine ⟨by rw [h1], ?_⟩
  rw [h1]
  simp [SingletonMeta.call, h2]

/-- C3, witness for the amended theorem: a second construction with a
different configuration observes the first instance. -/
theorem singleton_keyed_by_class_witness :
    (SingletonMeta.call
        (SingletonMeta.call [] "LxmlScraper" ⟨"http://one", [], "", "", "", "", ""⟩).2
        "LxmlScraper" ⟨"http://two", [], "", "", "", "", ""⟩).1
      = ⟨⟨"http://one", [], "", "", "", "", ""⟩⟩ :=
  (singleton_keyed_by_class [] "LxmlScraper" ⟨"http://one", [], "", "", "", "", ""⟩
      ⟨"http://two", [], "", "", "", "", ""⟩ (by decide)).2

/-- C4: the path-based Variant B never parses the fetched document — for
every handler and every parser behaviour, `LxmlScraper.__init__` raises
`AttributeError` while evaluating `self.http_request.content`, because the
handler stores the response under `response` and has no `content`
attribute; construction never reaches the parser, contradicting the
parse-once-at-construction contract. -/
theorem lxml_init_always_attribute_error :
    ∀ (Tree : Type) (etreeHTML : PyAttr → Except Unit Tree) (h : HttpRequestHandler),
      LxmlScraper.initTree etreeHTML h = .error .attributeError := by
  intro Tree et h
  rfl

/-- C5: `Fetcher.fetch` issues one GET with verification on; if the first
attempt succeeds no retry happens; on any first-attempt error exactly one
retry is issued with certificate validation disabled and that retry's
outcome — success or the underlying error — is returned with no further
attempt; any returned response has a status outside the raising range and
is exactly the transport's response, bytes unmutated. -/
theorem fetch_retry_contract :
    ∀ (t : Transport),
      (∀ r, attemptGet t true = .ok r → get_web_page t = (.ok r, [true]))
      ∧ (∀ e, attemptGet t true = .error e →
          get_web_page t = (attemptGet t false, [true, false]))
      ∧ (∀ r, (get_web_page t).1 = .ok r →
          raise_for_status_raises r.status = false ∧ ∃ v, t.get v = .ok r) := by
  intro t
  refine ⟨?_, ?_, ?_⟩
  · intro r h
    simp [get_web_page, h]
  · intro e h
    simp [get_web_page, h]
  · intro r h
    unfold get_web_page at h
    cases ha : attemptGet t true with
    | ok r0 =>
      rw [ha] at h
      simp only [Except.ok.injEq] at h
      subst h
      obtain ⟨h1, h2⟩ := attemptGet_ok_spec t true r0 ha
      exact ⟨h1, true, h2⟩
    | error e =>
      rw [ha] at h
      simp only at h
      obtain ⟨h1, h2⟩ := attemptGet_ok_spec t false r h
      exact ⟨h1, false, h2⟩

/-- C5, witness: a transport failing the verified attempt and succeeding on
the relaxed retry yields the retry's response after exactly the two GETs. -/
theorem fetch_retry_contract_witness :
    get_web_page ⟨fun v => if v then .netError else .ok ⟨200, [], [7]⟩⟩
      = (.ok ⟨200, [], [7]⟩, [true, false]) := by
  have h := (fetch_retry_contract ⟨fun v => if v then .netError else .ok ⟨200, [], [7]⟩⟩).2.1
      FetchError.connectionError (by rfl)
  rw [h]
  rfl

/-- C6: for every parsed document and query list of length n, `get_data` of
both variants returns exactly n sub-lists, one per query in order, each
holding every match for that query in document order (empty when there is
no match, never raising), and a single non-list query is normalized to a
one-element list so the result then has length 1. -/
theorem extract_shape_contract :
    ∀ (soup : Soup) (tree : LxmlTree) (qs : List String) (q : String),
      (Bs4Scraper.get_data soup (.many qs)).length = qs.length
      ∧ (∀ i, i < qs.length →
          (Bs4Scraper.get_data soup (.many qs)).getD i []
            = (soup.select (qs.getD i "")).map SoupNode.text)
      ∧ Bs4Scraper.get_data soup (.one q) = [(soup.select q).map SoupNode.text]
      ∧ (LxmlScraper.get_data tree (.many qs)).length = qs.length
      ∧ (∀ i, i < qs.length →
          (LxmlScraper.get_data tree (.many qs)).getD i []
            = (tree.xpath (qs.getD i "")).map xpathItemValue)
      ∧ LxmlScraper.get_data tree (.one q) = [(tree.xpath q).map xpathItemValue] := by
  intro soup tree qs q
  refine ⟨by simp [Bs4Scraper.get_data], ?_, by simp [Bs4Scraper.get_data],
      by simp [LxmlScraper.get_data], ?_, by simp [LxmlScraper.get_data]⟩
  · intro i hi
    simp only [Bs4Scraper.get_data]
    exact getD_map_of_lt qs _ i "" [] hi
  · intro i hi
    simp only [LxmlScraper.get_data]
    exact getD_map_of_lt qs _ i "" [] hi

/-- C6, witness: two queries yield two sub-lists; the first sub-list is the
texts of the matches of the first query. -/
theorem extract_shape_contract_witness :
    (Bs4Scraper.get_data ⟨fun s => if s == "p" then [⟨"hi"⟩] else []⟩
        (.many ["p", "q"])).getD 0 [] = ["hi"] := by
  have h := (extract_shape_contract ⟨fun s => if s == "p" then [⟨"hi"⟩] else []⟩
      ⟨fun _ => []⟩ ["p", "q"] "p").2.1 0 (by norm_num)
  simpa using h

/-- C7: once the with-scope over a `SessionRequestHandler` has been
successfully entered, the session is closed on every exit path — normal
completion, early exit, or an error propagating from inside the scope. -/
theorem session_released_on_scope_exit :
    ∀ (α : Type) (login : LoginResult) (body : BodyOutcome α),
      login = .success → ((withSessionScope login body).2).closed = true := by
  intro α login body h
  subst h
  cases body <;> rfl

/-- C7, witness: the session is closed even when the body raised. -/
theorem session_released_on_scope_exit_witness :
    ((withSessionScope LoginResult.success
        (BodyOutcome.err "boom" : BodyOutcome Unit)).2).closed = true :=
  session_released_on_scope_exit Unit LoginResult.success (BodyOutcome.err "boom") rfl

/-- C8, counterexample: a failing local file write makes `downloadFile`
raise `IOError` to the caller — the except clause catches only
`RequestException` — contradicting the claim that every failure is
reported and never raised. -/
theorem download_file_raises_io_cex :
    (download_file (fun _ => .ok ⟨200, [], [1, 2]⟩) ⟨[], fun p => p == "save.bin"⟩
        "http://files/x" "save.bin").1
      = DownloadResult.raisedIOError := by
  rfl

/-- C8, amended: `downloadFile` either succeeds and writes the response
bytes to the save path, or fails; a network failure or non-success status
is reported and never raised, with no file written; a local file-write
`IOError`, however, propagates to the caller (so it can abort the
remaining items of a bulk download), with the file system unchanged. -/
theorem download_file_contract :
    ∀ (net : String → GetResult) (fs : FileSystem) (url savePath : String),
      (net url = .netError →
        download_file net fs url savePath = (.reportedError .connectionError, fs))
      ∧ (∀ r, net url = .ok r → raise_for_status_raises r.status = true →
        download_file net fs url savePath = (.reportedError (.httpError r.status), fs))
      ∧ (∀ r, net url = .ok r → raise_for_status_raises r.status = false →
        fs.writeFails savePath = false →
        (download_file net fs url savePath).1 = .completed
        ∧ fsGet (download_file net fs url savePath).2 savePath = some r.content)
      ∧ (∀ r, net url = .ok r → raise_for_status_raises r.status = false →
        fs.writeFails savePath = true →
        download_file net fs url savePath = (.raisedIOError, fs)) := by
  intro net fs url savePath
  refine ⟨?_, ?_, ?_, ?_⟩
  · intro h
    simp [download_file, h]
  · intro r h hr
    simp [download_file, h, hr]
  · intro r h hr hw
    have hd : download_file net fs url savePath
        = (.completed,
           { fs with files := (fs.files.filter (fun p => p.1 != savePath))
               ++ [(savePath, r.content)] }) := by
      simp [download_file, h, hr, fsWrite, hw]
    rw [hd]
    refine ⟨rfl, ?_⟩
    have hfind : List.find? (fun p => p.1 == savePath)
        (fs.files.filter (fun p => p.1 != savePath)) = none := by
      rw [List.find?_eq_none]
      intro x hx
      have hmem := List.of_mem_filter hx
      simp only [bne_iff_ne, ne_eq] at hmem
      simp [hmem]
    simp [fsGet, List.find?_append, hfind, List.find?]
  · intro r h hr hw
    simp [download_file, h, hr, fsWrite, hw]

/-- C8, witness for the amended theorem: a successful download writes the
response bytes to the save path. -/
theorem download_file_contract_witness :
    (download_file (fun _ => .ok ⟨200, [], [5, 6]⟩) ⟨[("old", [9])], fun _ => false⟩
        "http://files/y" "out.bin").1 = DownloadResult.completed
    ∧ fsGet (download_file (fun _ => .ok ⟨200, [], [5, 6]⟩)
        ⟨[("old", [9])], fun _ => false⟩ "http://files/y" "out.bin").2 "out.bin"
      = some [5, 6] := by
  have h := (download_file_contract (fun _ => .ok ⟨200, [], [5, 6]⟩)
      ⟨[("old", [9])], fun _ => false⟩ "http://files/y" "out.bin").2.2.1
      ⟨200, [], [5, 6]⟩ rfl (by decide) rfl
  simpa using h

/-- C9: `asJson` returns the parsed JSON body exactly when the declared
content type is the exact string `"application/json"`; for any other
declared content type it returns the explicit no-content marker and never
parses the body. -/
theorem json_content_contract :
    ∀ (α : Type) (parse : Bytes → α) (h : HttpRequestHandler),
      (dictGet h.response.headers "content-type" = some "application/json" →
        json_content parse h = some (parse h.response.content))
      ∧ (dictGet h.response.headers "content-type" ≠ some "application/json" →
        json_content parse h = none) := by
  intro α parse h
  constructor
  · intro hct
    simp [json_content, hct]
  · intro hct
    simp [json_content, hct]

/-- C9, witness: a declared content type of
`"application/json; charset=utf-8"` yields the no-content marker. -/
theorem json_content_contract_witness :
    json_content (fun b => b.length)
        ⟨"http://api", [],
         ⟨200, [("content-type", "application/json; charset=utf-8")], [3]⟩⟩
      = none :=
  (json_content_contract Nat (fun b => b.length)
      ⟨"http://api", [],
       ⟨200, [("content-type", "application/json; charset=utf-8")], [3]⟩⟩).2 (by decide)
